import Mathlib

/-!
Verification development for the kg_constructor repository.

We shallowly embed the parts of the code the claims are about:

* `src/domains/models.py` — the `Triple` pydantic model and its field
  validator (`pyStrip`, `mkTriple`);
* `src/builder/extraction.py` — `_normalize_triple` and `extract_from_text`
  (`normalizeRaw`, `extractFromText`);
* `src/builder/augmentation.py` — `_build_graph_from_triples`,
  `_format_components`, `connectivity_strategy`, `extract_connected_graph`
  (`buildGraphT`, `fmtComponents`, `connectivityStrategy`,
  `extractConnectedGraph`);
* `src/extractor.py` — `KnowledgeGraphExtractor.extract_connected_graph`
  and its helpers (`kgeLoop`, `kgeExtractConnectedGraph`).

LLM providers are modelled as response oracles: `client.extract` /
`client.generate_json` become functions from the call index to a raw
response (or an `Except` for calls that may raise).  Provider calls are
counted explicitly where a claim speaks about whether a call happens.
-/

namespace KG

/-! ## Python `str.strip` (whitespace trimming)

`str.strip()` with no argument removes leading and trailing whitespace.
We model the ASCII whitespace characters Python strips (the claims only
involve these). -/

def isPySpace (c : Char) : Bool :=
  c == ' ' || c == '\t' || c == '\n' || c == '\r' || c == '\x0b' || c == '\x0c'

/-- Remove trailing characters satisfying `p`. -/
def dropEnd (p : Char → Bool) (l : List Char) : List Char :=
  (l.reverse.dropWhile p).reverse

/-- Strip leading and trailing whitespace from a character list. -/
def pyStripL (l : List Char) : List Char :=
  dropEnd isPySpace (l.dropWhile isPySpace)

/-- Model of Python `s.strip()`. -/
def pyStrip (s : String) : String :=
  String.mk (pyStripL s.data)

theorem dropWhile_dropWhile (p : Char → Bool) (l : List Char) :
    (l.dropWhile p).dropWhile p = l.dropWhile p := by
  induction l with
  | nil => rfl
  | cons a t ih =>
    by_cases h : p a = true
    · simp [List.dropWhile_cons, h, ih]
    · simp [List.dropWhile_cons, h]

theorem length_dropWhile_le (p : Char → Bool) (l : List Char) :
    (l.dropWhile p).length ≤ l.length := by
  induction l with
  | nil => simp
  | cons a t ih =>
    by_cases h : p a = true
    · rw [List.dropWhile_cons, if_pos h]
      exact Nat.le_succ_of_le ih
    · rw [List.dropWhile_cons, if_neg h]

theorem dropWhile_cons_self {p : Char → Bool} {a : Char} {r : List Char}
    (h : (a :: r).dropWhile p = a :: r) : p a = false := by
  by_cases hp : p a = true
  · exfalso
    rw [List.dropWhile_cons, if_pos hp] at h
    have hle : (r.dropWhile p).length ≤ r.length := length_dropWhile_le p r
    rw [h] at hle
    simp at hle
  · simpa using hp

theorem dropEnd_prefix (p : Char → Bool) (l : List Char) :
    ∃ t, l = dropEnd p l ++ t := by
  refine ⟨(l.reverse.takeWhile p).reverse, ?_⟩
  unfold dropEnd
  have h := List.takeWhile_append_dropWhile (p := p) (l := l.reverse)
  calc l = l.reverse.reverse := (List.reverse_reverse l).symm
    _ = (l.reverse.takeWhile p ++ l.reverse.dropWhile p).reverse := by rw [h]
    _ = (l.reverse.dropWhile p).reverse ++ (l.reverse.takeWhile p).reverse := by
        rw [List.reverse_append]

theorem dropEnd_dropEnd (p : Char → Bool) (l : List Char) :
    dropEnd p (dropEnd p l) = dropEnd p l := by
  unfold dropEnd
  rw [List.reverse_reverse, dropWhile_dropWhile]

theorem dropWhile_dropEnd (p : Char → Bool) (l : List Char)
    (h : l.dropWhile p = l) : (dropEnd p l).dropWhile p = dropEnd p l := by
  obtain ⟨t, ht⟩ := dropEnd_prefix p l
  cases hd : dropEnd p l with
  | nil => rfl
  | cons a s =>
    rw [hd] at ht
    have hhead : p a = false := by
      apply dropWhile_cons_self (r := s ++ t)
      rw [ht] at h
      have h' : ((a :: s) ++ t).dropWhile p = (a :: s) ++ t := h
      simpa using h'
    simp [List.dropWhile_cons, hhead]

theorem pyStripL_idem (l : List Char) : pyStripL (pyStripL l) = pyStripL l := by
  unfold pyStripL
  set m := l.dropWhile isPySpace with hm
  have hmm : m.dropWhile isPySpace = m := by
    rw [hm]; exact dropWhile_dropWhile isPySpace l
  rw [dropWhile_dropEnd isPySpace m hmm, dropEnd_dropEnd]

theorem pyStrip_idem (s : String) : pyStrip (pyStrip s) = pyStrip s := by
  unfold pyStrip
  exact congrArg String.mk (pyStripL_idem s.data)

theorem pyStrip_empty : pyStrip "" = "" := rfl

theorem pyStrip_eq_empty_iff (s : String) :
    pyStrip s = "" ↔ pyStripL s.data = [] := by
  constructor
  · intro h
    have : (pyStrip s).data = ("" : String).data := by rw [h]
    simpa [pyStrip] using this
  · intro h
    unfold pyStrip
    rw [h]

/-! ## The `Triple` model (`src/domains/models.py`)

Pydantic model with fields `head`, `relation`, `tail`, `inference`
(an enum with values `explicit` / `contextual`, default `explicit`) and an
optional `justification`.  The validator `must_not_be_empty` rejects a
field that is empty or whitespace-only and stores the stripped value.
Pydantic equality compares all model fields. -/

inductive InferenceType where
  | explicit
  | contextual
deriving DecidableEq, Repr

/-- The string value of an `InferenceType` member (`str`-valued enum). -/
def InferenceType.toValue : InferenceType → String
  | .explicit => "explicit"
  | .contextual => "contextual"

/-- Pydantic coercion of a string into the `InferenceType` enum. -/
def parseInference (s : String) : Option InferenceType :=
  if s = "explicit" then some .explicit
  else if s = "contextual" then some .contextual
  else none

structure Triple where
  head : String
  relation : String
  tail : String
  inference : InferenceType
  justification : Option String
deriving DecidableEq, Repr

/-- The validator condition `if not v or not v.strip()` of
`Triple.must_not_be_empty`. -/
def fieldBad (v : String) : Bool :=
  v == "" || pyStrip v == ""

/-- Model of `Triple(head=..., relation=..., tail=..., inference=...,
justification=...)`: pydantic runs `must_not_be_empty` on `head`,
`relation` and `tail`; construction fails when any validator raises, and
each validated field stores the stripped value. -/
def mkTriple (h r t : String) (inf : InferenceType) (j : Option String) :
    Option Triple :=
  if fieldBad h || fieldBad r || fieldBad t then none
  else some ⟨pyStrip h, pyStrip r, pyStrip t, inf, j⟩

theorem fieldBad_iff (v : String) : fieldBad v = true ↔ pyStrip v = "" := by
  unfold fieldBad
  constructor
  · intro h
    rcases Bool.or_eq_true_iff.mp h with h1 | h2
    · have hv : v = "" := by simpa using h1
      rw [hv]; rfl
    · simpa using h2
  · intro h
    apply Bool.or_eq_true_iff.mpr
    right
    simpa using h

theorem parseInference_toValue (i : InferenceType) :
    parseInference i.toValue = some i := by
  cases i <;> rfl

/-! ## Raw provider items

A raw item is a JSON object (Python dict).  We model the keys the code
reads; `none` stands for an absent key. -/

structure RawTriple where
  head : Option String
  relation : Option String
  tail : Option String
  inference : Option String
  justification : Option String
  charStart : Option Int
  charEnd : Option Int
  extractionText : Option String
deriving DecidableEq, Repr

/-- Model of `_normalize_triple` in `src/builder/extraction.py`: read each
field with a default, construct a `Triple`, return `None` on any pydantic
validation error (which the code logs and skips). -/
def normalizeRaw (d : RawTriple) : Option Triple := do
  let inf ← parseInference (d.inference.getD "explicit")
  mkTriple (d.head.getD "") (d.relation.getD "") (d.tail.getD "") inf
    d.justification

/-- Model of `Triple(**t_dict)` after `t_dict["inference"] =
InferenceType.CONTEXTUAL` in `connectivity_strategy`
(`src/builder/augmentation.py` lines 216–224): the three core keys are
required (pydantic raises on a missing required field), the inference is
forced to `contextual`, and validation failures are skipped. -/
def tripleOfRawForced (d : RawTriple) : Option Triple := do
  let h ← d.head
  let r ← d.relation
  let t ← d.tail
  mkTriple h r t .contextual d.justification

/-- Model of `Triple(**t)` for a raw dict initial triple in
`extract_connected_graph` (`src/builder/augmentation.py` lines 308–311):
required keys, inference taken from the dict (default `explicit`). -/
def tripleOfRaw (d : RawTriple) : Option Triple := do
  let h ← d.head
  let r ← d.relation
  let t ← d.tail
  let inf ← parseInference (d.inference.getD "explicit")
  mkTriple h r t inf d.justification

/-! ## Directed graph and weakly connected components

`_build_graph_from_triples` builds an `nx.DiGraph` by `G.add_edge(head,
tail, relation=relation)` for every triple with truthy head and tail.  In
networkx, `add_edge` inserts the endpoints as nodes when missing
(preserving insertion order) and stores at most one edge per ordered
pair, overwriting the `relation` attribute on repetition.
`nx.weakly_connected_components` enumerates the components of the
underlying undirected graph, one per unvisited node in node order. -/

structure DiGraph where
  nodes : List String
  edges : List (String × String × String)
deriving DecidableEq, Repr

def edgeKeyList (es : List (String × String × String)) :
    List (String × String) :=
  es.map (fun e => (e.1, e.2.1))

def addNode (g : DiGraph) (v : String) : DiGraph :=
  if v ∈ g.nodes then g else { g with nodes := g.nodes ++ [v] }

def setEdge (es : List (String × String × String)) (u v rel : String) :
    List (String × String × String) :=
  if (u, v) ∈ edgeKeyList es then
    es.map (fun e => if e.1 = u ∧ e.2.1 = v then (u, v, rel) else e)
  else es ++ [(u, v, rel)]

def addEdge (g : DiGraph) (u v rel : String) : DiGraph :=
  { addNode (addNode g u) v with
    edges := setEdge (addNode (addNode g u) v).edges u v rel }

/-- One step of `_build_graph_from_triples`: `if t.head and t.tail:
G.add_edge(...)` (non-empty strings are truthy). -/
def addTripleEdge (g : DiGraph) (x : String × String × String) : DiGraph :=
  if x.1 ≠ "" ∧ x.2.1 ≠ "" then addEdge g x.1 x.2.1 x.2.2 else g

def buildGraphOf (items : List (String × String × String)) : DiGraph :=
  items.foldl addTripleEdge ⟨[], []⟩

/-- `_build_graph_from_triples` of `src/builder/augmentation.py`. -/
def buildGraphT (ts : List Triple) : DiGraph :=
  buildGraphOf (ts.map (fun t => (t.head, t.tail, t.relation)))

/-- The `relation` attribute stored on edge `(u, v)`, when present. -/
def lookupRel (g : DiGraph) (u v : String) : Option String :=
  (g.edges.find? (fun e => decide (e.1 = u ∧ e.2.1 = v))).map (fun e => e.2.2)

/-- One expansion step of an undirected breadth-first search: append every
unvisited node adjacent (in either direction) to the current set. -/
def growStep (es : List (String × String)) (univ cur : List String) :
    List String :=
  cur ++ univ.filter
    (fun v => decide (¬ v ∈ cur ∧ ∃ u ∈ cur, (u, v) ∈ es ∨ (v, u) ∈ es))

def reachFix (es : List (String × String)) (univ : List String) :
    Nat → List String → List String
  | 0, cur => cur
  | n + 1, cur =>
    let next := growStep es univ cur
    if next.length = cur.length then cur else reachFix es univ n next

/-- The weakly connected component containing `v`. -/
def compOf (nodes : List String) (keys : List (String × String))
    (v : String) : List String :=
  reachFix keys nodes nodes.length [v]

/-- Enumerate weakly connected components: scan nodes in order, emitting
the component of each not-yet-visited node. -/
def wccAux (nodes : List String) (keys : List (String × String)) :
    List (List String) :=
  (nodes.foldl
    (fun (st : List (List String) × List String) v =>
      if v ∈ st.2 then st
      else (st.1 ++ [compOf nodes keys v], st.2 ++ compOf nodes keys v))
    ([], [])).1

/-- Model of `list(nx.weakly_connected_components(G))` (components listed
in discovery order; each component given as its node list). -/
def wccComponents (g : DiGraph) : List (List String) :=
  wccAux g.nodes (edgeKeyList g.edges)

/-! ## Builder extraction engine (`src/builder/extraction.py`)

`extract_from_text` assembles a prompt from the domain template and the
record, calls `client.extract` unconditionally, and returns the
normalized valid triples.  The provider is an oracle: its response list
is a parameter.  The second component of the result counts how many
provider extraction calls the function performed. -/

def extractFromText (providerResp : List RawTriple) (text : String)
    (recordId : Option String) : List Triple × Nat :=
  (providerResp.filterMap normalizeRaw, 1)

/-! ## Connectivity strategy (`src/builder/augmentation.py`)

`connectivity_strategy` loops `for i in range(max_iterations)`: rebuild
the graph, stop when the component count is within `max_disconnected`,
otherwise call the provider; an exception from the provider records a
failed iteration, sets `error_occurred`, and breaks; a successful call
appends the validated, contextual-forced triples and a success record.
The provider is an oracle indexed by the iteration counter `i`, returning
`Except.error` where the Python call would raise. -/

structure IterRecord where
  iteration : Nat
  status : String
  componentsBefore : Option Nat
  newTriplesCount : Option Nat
  error : Option String
deriving DecidableEq, Repr

structure StratMeta where
  strategy : String
  iterations : List IterRecord
  finalComponents : Nat
  partialResult : Bool
deriving DecidableEq, Repr

structure StratResult where
  triples : List Triple
  metadata : StratMeta
deriving DecidableEq, Repr

def connLoop (provider : Nat → Except String (List RawTriple))
    (maxDisc : Nat) :
    Nat → Nat → List Triple → List IterRecord →
    List Triple × List IterRecord × Bool
  | 0, _, acc, recs => (acc, recs, false)
  | fuel + 1, i, acc, recs =>
    if (wccComponents (buildGraphT acc)).length ≤ maxDisc then (acc, recs, false)
    else
      match provider i with
      | .error e => (acc, recs ++ [⟨i + 1, "failed", none, none, some e⟩], true)
      | .ok raws =>
        connLoop provider maxDisc fuel (i + 1)
          (acc ++ raws.filterMap tripleOfRawForced)
          (recs ++ [⟨i + 1, "success",
            some (wccComponents (buildGraphT acc)).length,
            some (raws.filterMap tripleOfRawForced).length, none⟩])

/-- Model of `connectivity_strategy`:  `all_triples = list(triples)`
(a copy), the iteration loop, and the final metadata assembly. -/
def connectivityStrategy (provider : Nat → Except String (List RawTriple))
    (maxDisc maxIter : Nat) (triples : List Triple) : StratResult :=
  let r := connLoop provider maxDisc maxIter 0 triples []
  ⟨r.1, ⟨"connectivity", r.2.1,
    (wccComponents (buildGraphT r.1)).length, r.2.2⟩⟩

/-! ## Builder orchestrator (`extract_connected_graph` in
`src/builder/augmentation.py`)

The pre-phase runs under `if initial_triples:` — which is falsy both for
`None` and for the empty list — validating each provided element
(`Triple` instances pass through, dicts go through the `Triple`
constructor, invalid ones are dropped); otherwise it delegates to
`extract_from_text`.  Strategy dispatch looks the name up in the
`STRATEGIES` registry, which at module load contains exactly
`"connectivity"`.  The `Nat` in the result counts the initial extraction
calls performed. -/

def validateInitialElem (x : Triple ⊕ RawTriple) : Option Triple :=
  match x with
  | .inl t => some t
  | .inr d => tripleOfRaw d

structure ECGResult where
  triples : List Triple
  metadata : StratMeta
  extractionCalls : Nat
deriving DecidableEq, Repr

def extractConnectedGraph (extResp : List RawTriple)
    (augProvider : Nat → Except String (List RawTriple))
    (text : String) (recordId : Option String)
    (initialTriples : Option (List (Triple ⊕ RawTriple)))
    (maxDisc maxIter : Nat) (strategyName : String) :
    Except String ECGResult :=
  let truthyInitial : Bool :=
    match initialTriples with
    | some l => !l.isEmpty
    | none => false
  let pre : List Triple × Nat :=
    if truthyInitial then
      ((initialTriples.getD []).filterMap validateInitialElem, 0)
    else extractFromText extResp text recordId
  if strategyName = "connectivity" then
    let r := connectivityStrategy augProvider maxDisc maxIter pre.1
    .ok ⟨r.triples, r.metadata, pre.2⟩
  else .error ("Unknown augmentation strategy: " ++ strategyName)

/-! ## Component formatting (`_format_components` in
`src/builder/augmentation.py`)

The Python loop enumerates every component starting at 1, joins the
first 10 node names, appends a bare `"..."` when the component has more
than 10 nodes, wraps the line as `Component {i}: [{node_list}]`, and
joins the lines with newlines. -/

def fmtComponentOne (i : Nat) (nodes : List String) : String :=
  "Component " ++ toString i ++ ": [" ++
    (if nodes.length > 10 then
      String.intercalate ", " (nodes.take 10) ++ "..."
    else String.intercalate ", " (nodes.take 10)) ++ "]"

def fmtComponents (components : List (List String)) : List String :=
  components.enum.map (fun p => fmtComponentOne (p.1 + 1) p.2)

def fmtComponentsStr (components : List (List String)) : String :=
  String.intercalate "\n" (fmtComponents components)

/-- The component listing as the claim words it: the first up-to-30
components, each with up to 10 node names; with the cap removed and the
per-component total count removed as the code forces (amended reading:
all components are formatted and the ellipsis carries no count). -/
def fmtComponentsAmendedSpec (components : List (List String)) : String :=
  String.intercalate "\n"
    (components.enum.map (fun p =>
      "Component " ++ toString (p.1 + 1) ++ ": [" ++
        (String.intercalate ", " (p.2.take 10) ++
          (if 10 < p.2.length then "..." else "")) ++ "]"))

/-! ## The class-based pipeline
(`KnowledgeGraphExtractor.extract_connected_graph` in `src/extractor.py`)

Here triples are plain dicts carrying the normalized fields plus an
`iteration_source` marker.  Each refinement pass calls
`generate_json`, normalizes the items, filters out those whose
`(head, relation, tail)` key already occurs among the accumulated
triples, and appends the survivors; early stops fire when no new triple
arrives or the component count does not decrease. -/

structure DTriple where
  head : String
  relation : String
  tail : String
  inference : String
  justification : Option String
  charStart : Option Int
  charEnd : Option Int
  extractionText : Option String
  iterationSource : Option Nat
deriving DecidableEq, Repr

/-- Model of `KnowledgeGraphExtractor._normalize_triple`: total, reads
each field with its default; the `iteration_source` key is absent. -/
def normalizeDict (d : RawTriple) : DTriple :=
  ⟨d.head.getD "", d.relation.getD "", d.tail.getD "",
    d.inference.getD "explicit", d.justification,
    d.charStart, d.charEnd, d.extractionText, none⟩

/-- The deduplication key `(t['head'], t['relation'], t['tail'])`. -/
def kgeKey (t : DTriple) : String × String × String :=
  (t.head, t.relation, t.tail)

/-- Graph construction of `KnowledgeGraphExtractor._build_graph_from_triples`
(same networkx calls as the builder version, over dicts). -/
def buildGraphD (ts : List DTriple) : DiGraph :=
  buildGraphOf (ts.map (fun t => (t.head, t.tail, t.relation)))

structure KgeIterRecord where
  iteration : Nat
  newTriples : Nat
  totalTriples : Nat
  disconnectedComponents : Nat
  earlyStopReason : Option String
deriving DecidableEq, Repr

/-- The new-triple batch of one refinement pass: normalize the provider
items, drop those whose key already occurs among the accumulated
triples, mark the survivors with `iteration_source = iteration + 1`. -/
def kgeNew (aug : List RawTriple) (iteration : Nat) (ts : List DTriple) :
    List DTriple :=
  ((aug.map normalizeDict).filter
      (fun t => decide (¬ kgeKey t ∈ ts.map kgeKey))).map
    (fun t => { t with iterationSource := some (iteration + 1) })

/-- The refinement `while` loop of
`KnowledgeGraphExtractor.extract_connected_graph`.  The fuel equals
`max_iterations - iteration`, so running out of fuel is exactly the
`iteration < max_iterations` test failing.  The provider oracle is
indexed by the number of `generate_json` calls made so far, which always
equals `recs.length`. -/
def kgeLoop (provider : Nat → List RawTriple) (maxDisc : Nat) :
    Nat → Nat → Nat → List DTriple → List DTriple → List KgeIterRecord →
    List DTriple × List DTriple × List KgeIterRecord × Nat × Nat
  | 0, iteration, numC, ts, augAcc, recs => (ts, augAcc, recs, numC, iteration)
  | fuel + 1, iteration, numC, ts, augAcc, recs =>
    if numC ≤ maxDisc then (ts, augAcc, recs, numC, iteration)
    else
      if (kgeNew (provider recs.length) iteration ts).length = 0 then
        (ts, augAcc,
          recs ++ [⟨iteration + 1, 0, ts.length, numC, some "no_new_triples_found"⟩],
          numC, iteration)
      else
        if numC ≤ (wccComponents (buildGraphD
            (ts ++ kgeNew (provider recs.length) iteration ts))).length then
          (ts ++ kgeNew (provider recs.length) iteration ts,
            augAcc ++ kgeNew (provider recs.length) iteration ts,
            recs ++ [⟨iteration + 1,
              (kgeNew (provider recs.length) iteration ts).length,
              (ts ++ kgeNew (provider recs.length) iteration ts).length,
              (wccComponents (buildGraphD
                (ts ++ kgeNew (provider recs.length) iteration ts))).length,
              some "no_connectivity_improvement"⟩],
            (wccComponents (buildGraphD
              (ts ++ kgeNew (provider recs.length) iteration ts))).length,
            iteration)
        else
          kgeLoop provider maxDisc fuel (iteration + 1)
            (wccComponents (buildGraphD
              (ts ++ kgeNew (provider recs.length) iteration ts))).length
            (ts ++ kgeNew (provider recs.length) iteration ts)
            (augAcc ++ kgeNew (provider recs.length) iteration ts)
            (recs ++ [⟨iteration + 1,
              (kgeNew (provider recs.length) iteration ts).length,
              (ts ++ kgeNew (provider recs.length) iteration ts).length,
              (wccComponents (buildGraphD
                (ts ++ kgeNew (provider recs.length) iteration ts))).length,
              none⟩])

structure KgeResult where
  triples : List DTriple
  augmentationTriples : List DTriple
  refinementIterations : List KgeIterRecord
  finalComponents : Nat
  iterationsUsed : Nat
deriving DecidableEq, Repr

/-- Pre-phase marking of provided initial triples: set
`iteration_source = 0` only where the key is missing. -/
def markInitial (l : List DTriple) : List DTriple :=
  l.map (fun t => { t with iterationSource := some (t.iterationSource.getD 0) })

/-- Model of `KnowledgeGraphExtractor.extract_connected_graph`.  Note
the pre-phase test here is `initial_triples is not None`, so the empty
list does NOT trigger re-extraction (unlike the builder orchestrator).
`extResp` is the oracle for the initial `extract_from_text` call,
`provider` the oracle for the per-pass `generate_json` calls. -/
def kgeExtractConnectedGraph (extResp : List RawTriple)
    (provider : Nat → List RawTriple) (initial : Option (List DTriple))
    (maxDisc maxIter : Nat) : KgeResult :=
  let ts0 : List DTriple :=
    match initial with
    | some l => markInitial l
    | none =>
      (extResp.map normalizeDict).map (fun t => { t with iterationSource := some 0 })
  let numC0 := (wccComponents (buildGraphD ts0)).length
  let r := kgeLoop provider maxDisc maxIter 0 numC0 ts0 [] []
  ⟨r.1, r.2.1, r.2.2.1, r.2.2.2.1, r.2.2.2.2⟩

/-- Serialization of a validated `Triple` to the output JSON shape
(`head`, `relation`, `tail`, `inference` as its string value,
`justification`). -/
def dumpTriple (t : Triple) : RawTriple :=
  ⟨some t.head, some t.relation, some t.tail, some t.inference.toValue,
    t.justification, none, none, none⟩

/-! ## Further definitions used by the claim statements -/

/-- A concrete valid raw provider item. -/
def rawAB : RawTriple :=
  ⟨some "A", some "r", some "B", none, none, none, none, none⟩

/-- An augmentation provider that always succeeds with no items. -/
def augNever : Nat → Except String (List RawTriple) := fun _ => .ok []

/-- Concrete input with 31 two-node components (as arise from 31 triples
over pairwise disjoint node pairs). -/
def comps31 : List (List String) :=
  (List.range 31).map (fun i => ["n" ++ toString i, "m" ++ toString i])

/-- The node-insertion effect of `G.add_edge` on the node list. -/
def addNodeName (ns : List String) (v : String) : List String :=
  if v ∈ ns then ns else ns ++ [v]

/-- The edge-key effect of `G.add_edge` on the list of edge keys. -/
def insertKey (ks : List (String × String)) (p : String × String) :
    List (String × String) :=
  if p ∈ ks then ks else ks ++ [p]

/-- Combined effect of `G.add_edge(p.1, p.2, ...)` on nodes and edge
keys, ignoring the relation attribute. -/
def stepNK (st : List String × List (String × String))
    (p : String × String) : List String × List (String × String) :=
  (addNodeName (addNodeName st.1 p.1) p.2, insertKey st.2 p)

/-- Keep the first occurrence of each element, relative to an already
seen set. -/
def dedupRel {α : Type} [DecidableEq α] (seen : List α) :
    List α → List α
  | [] => []
  | a :: l =>
    if a ∈ seen then dedupRel seen l else a :: dedupRel (seen ++ [a]) l

/-- Keep the first occurrence of each element. -/
def dedupFirst {α : Type} [DecidableEq α] (l : List α) : List α :=
  dedupRel [] l

/-- The ordered node pair of a triple. -/
def tripleKeyPair (t : Triple) : String × String := (t.head, t.tail)

def dedupByPairGo (seen : List (String × String)) :
    List Triple → List Triple
  | [] => []
  | t :: ts =>
    if tripleKeyPair t ∈ seen then dedupByPairGo seen ts
    else t :: dedupByPairGo (seen ++ [tripleKeyPair t]) ts

/-- Keep, for each ordered `(head, tail)` pair, only the first triple
carrying it. -/
def dedupByPair (ts : List Triple) : List Triple := dedupByPairGo [] ts

/-- The relation attribute stored in an edge list for key `(u, v)`. -/
def findRel (es : List (String × String × String)) (u v : String) :
    Option String :=
  (es.find? (fun e => decide (e.1 = u ∧ e.2.1 = v))).map (fun e => e.2.2)

/-- Invariant tying edge keys to the node list: every stored key has
both endpoints among the nodes. -/
def nkInv (st : List String × List (String × String)) : Prop :=
  ∀ p ∈ st.2, p.1 ∈ st.1 ∧ p.2 ∈ st.1

/-! ## Auxiliary lemmas about the Triple constructor -/

theorem mkTriple_none_iff (h r t : String) (inf : InferenceType)
    (j : Option String) :
    mkTriple h r t inf j = none ↔
      (pyStrip h = "" ∨ pyStrip r = "" ∨ pyStrip t = "") := by
  have key : (fieldBad h || fieldBad r || fieldBad t) = true ↔
      (pyStrip h = "" ∨ pyStrip r = "" ∨ pyStrip t = "") := by
    simp [Bool.or_eq_true, fieldBad_iff, or_assoc]
  unfold mkTriple
  constructor
  · intro hn
    by_cases hb : (fieldBad h || fieldBad r || fieldBad t) = true
    · exact key.mp hb
    · rw [if_neg hb] at hn
      cases hn
  · intro hor
    rw [if_pos (key.mpr hor)]

theorem mkTriple_some (h r t : String) (inf : InferenceType)
    (j : Option String) (tr : Triple) (H : mkTriple h r t inf j = some tr) :
    tr = ⟨pyStrip h, pyStrip r, pyStrip t, inf, j⟩ ∧
      pyStrip h ≠ "" ∧ pyStrip r ≠ "" ∧ pyStrip t ≠ "" := by
  by_cases hb : (fieldBad h || fieldBad r || fieldBad t) = true
  · rw [mkTriple, if_pos hb] at H
    cases H
  · have hfh : fieldBad h = false := by
      cases hh : fieldBad h
      · rfl
      · exact absurd (by simp [hh]) hb
    have hfr : fieldBad r = false := by
      cases hh : fieldBad r
      · rfl
      · exact absurd (by simp [hh]) hb
    have hft : fieldBad t = false := by
      cases hh : fieldBad t
      · rfl
      · exact absurd (by simp [hh]) hb
    rw [mkTriple, if_neg hb] at H
    injection H with H
    refine ⟨H.symm, ?_, ?_, ?_⟩
    · intro he
      rw [(fieldBad_iff h).mpr he] at hfh
      cases hfh
    · intro he
      rw [(fieldBad_iff r).mpr he] at hfr
      cases hfr
    · intro he
      rw [(fieldBad_iff t).mpr he] at hft
      cases hft

theorem fieldBad_pyStrip (v : String) (hv : pyStrip v ≠ "") :
    fieldBad (pyStrip v) = false := by
  unfold fieldBad
  rw [pyStrip_idem]
  have : (pyStrip v == "") = false := beq_eq_false_iff_ne.mpr hv
  rw [this, Bool.or_self]

theorem mkTriple_stripped (h r t : String) (inf : InferenceType)
    (j : Option String) (hh : pyStrip h ≠ "") (hr : pyStrip r ≠ "")
    (ht : pyStrip t ≠ "") :
    mkTriple (pyStrip h) (pyStrip r) (pyStrip t) inf j =
      some ⟨pyStrip h, pyStrip r, pyStrip t, inf, j⟩ := by
  unfold mkTriple
  rw [fieldBad_pyStrip h hh, fieldBad_pyStrip r hr, fieldBad_pyStrip t ht]
  simp [pyStrip_idem]

/-! ## Claim C4 — Triple construction validation -/

/-- C4: Triple construction fails if and only if at least one of head,
relation, tail is empty or whitespace-only after trimming; on success
the stored head, relation and tail are the trimmed forms of the inputs
(and inference and justification are stored as given). -/
theorem triple_construction_spec (h r t : String) (inf : InferenceType)
    (j : Option String) :
    (mkTriple h r t inf j = none ↔
      (pyStrip h = "" ∨ pyStrip r = "" ∨ pyStrip t = "")) ∧
    (∀ tr : Triple, mkTriple h r t inf j = some tr →
      tr.head = pyStrip h ∧ tr.relation = pyStrip r ∧ tr.tail = pyStrip t ∧
        tr.inference = inf ∧ tr.justification = j) := by
  refine ⟨mkTriple_none_iff h r t inf j, ?_⟩
  intro tr htr
  obtain ⟨htr', -⟩ := mkTriple_some h r t inf j tr htr
  subst htr'
  exact ⟨rfl, rfl, rfl, rfl, rfl⟩

/-- Witness for C4 at a concrete input: `" John "` is stored trimmed,
and a whitespace-only relation makes construction fail. -/
theorem triple_construction_spec_witness :
    ((mkTriple " John " "works_at" " Google " InferenceType.explicit
        none).isSome ∧
      (⟨"John", "works_at", "Google", .explicit, none⟩ : Triple).head =
        pyStrip " John ") ∧
    mkTriple "John" "  " "Google" InferenceType.explicit none = none := by
  constructor
  · constructor
    · decide
    · exact ((triple_construction_spec " John " "works_at" " Google "
        InferenceType.explicit none).2
          ⟨"John", "works_at", "Google", .explicit, none⟩ (by decide)).1
  · exact (triple_construction_spec "John" "  " "Google"
      InferenceType.explicit none).1.mpr (Or.inr (Or.inl (by decide)))

/-! ## Claim C5 — Triple equality

Pydantic model equality compares every model field, `justification`
included, so the claim that equality is decided by the four semantic
fields alone fails; the deduplication key, by contrast, really ignores
both `inference` and `justification`. -/

/-- C5 counterexample: two constructed triples that agree on head,
relation, tail and inference but differ in justification are NOT equal,
refuting the claimed four-field equality at this concrete input. -/
theorem triple_eq_justification_cex :
    mkTriple "a" "r" "b" InferenceType.explicit (some "x") =
      some ⟨"a", "r", "b", .explicit, some "x"⟩ ∧
    mkTriple "a" "r" "b" InferenceType.explicit (some "y") =
      some ⟨"a", "r", "b", .explicit, some "y"⟩ ∧
    ((⟨"a", "r", "b", .explicit, some "x"⟩ : Triple).head =
        (⟨"a", "r", "b", .explicit, some "y"⟩ : Triple).head ∧
      (⟨"a", "r", "b", .explicit, some "x"⟩ : Triple).relation =
        (⟨"a", "r", "b", .explicit, some "y"⟩ : Triple).relation ∧
      (⟨"a", "r", "b", .explicit, some "x"⟩ : Triple).tail =
        (⟨"a", "r", "b", .explicit, some "y"⟩ : Triple).tail ∧
      (⟨"a", "r", "b", .explicit, some "x"⟩ : Triple).inference =
        (⟨"a", "r", "b", .explicit, some "y"⟩ : Triple).inference) ∧
    ¬ ((⟨"a", "r", "b", .explicit, some "x"⟩ : Triple) =
        ⟨"a", "r", "b", .explicit, some "y"⟩) := by
  refine ⟨by decide, by decide, by decide, by decide⟩

/-- C5 (amended): two triples are equal iff all five model fields agree —
head, relation, tail, inference AND justification (pydantic compares
every field). -/
theorem triple_eq_iff_all_fields (t1 t2 : Triple) :
    t1 = t2 ↔
      (t1.head = t2.head ∧ t1.relation = t2.relation ∧ t1.tail = t2.tail ∧
        t1.inference = t2.inference ∧ t1.justification = t2.justification) := by
  cases t1
  cases t2
  simp [Triple.mk.injEq]

/-- Witness for C5 (amended) at concrete triples. -/
theorem triple_eq_iff_all_fields_witness :
    (⟨"a", "r", "b", .explicit, some "x"⟩ : Triple) =
      ⟨"a", "r", "b", .explicit, some "x"⟩ :=
  (triple_eq_iff_all_fields _ _).mpr ⟨rfl, rfl, rfl, rfl, rfl⟩

/-! ## Claim C8 — Round-trip / idempotence of normalization -/

/-- C8: a valid triple serialized to the output JSON shape and
re-validated through the Triple constructor yields an equal triple, and
re-running the constructor on the stored (trimmed) fields is the
identity: normalization is idempotent. -/
theorem triple_roundtrip (h r t : String) (inf : InferenceType)
    (j : Option String) (tr : Triple) (H : mkTriple h r t inf j = some tr) :
    tripleOfRaw (dumpTriple tr) = some tr ∧
      mkTriple tr.head tr.relation tr.tail tr.inference tr.justification =
        some tr := by
  obtain ⟨htr, hh, hr, ht⟩ := mkTriple_some h r t inf j tr H
  subst htr
  have hmk := mkTriple_stripped h r t inf j hh hr ht
  refine ⟨?_, hmk⟩
  simp only [tripleOfRaw, dumpTriple, Option.getD_some, Option.bind_eq_bind,
    Option.some_bind, parseInference_toValue]
  exact hmk

/-- Witness for C8 at a concrete input. -/
theorem triple_roundtrip_witness :
    tripleOfRaw (dumpTriple ⟨"John", "works_at", "Google", .explicit, none⟩) =
      some ⟨"John", "works_at", "Google", .explicit, none⟩ ∧
    mkTriple "John" "works_at" "Google" InferenceType.explicit none =
      some ⟨"John", "works_at", "Google", .explicit, none⟩ :=
  ⟨(triple_roundtrip " John " "works_at" "Google" InferenceType.explicit none
      ⟨"John", "works_at", "Google", .explicit, none⟩ (by decide)).1,
    by decide⟩

/-! ## Claim C9 — Component formatting -/

theorem string_append_empty (s : String) : s ++ "" = s := by
  cases s with
  | mk data => exact congrArg String.mk (List.append_nil data)

/-- C9 counterexample: `_format_components` of the builder augmentation
module formats EVERY component — 31 lines for 31 components, not at most
30 — and for a component with more than 10 nodes it appends a bare
ellipsis without the component's total node count. -/
theorem format_components_cex :
    (fmtComponents comps31).length = 31 ∧
    fmtComponentsStr
        [["a1", "a2", "a3", "a4", "a5", "a6", "a7", "a8", "a9", "a10",
          "a11"]] =
      "Component 1: [a1, a2, a3, a4, a5, a6, a7, a8, a9, a10...]" := by
  constructor
  · simp [fmtComponents, comps31]
  · decide

/-- C9 (amended): the builder component listing formats all components;
within each component it lists at most the first 10 node names and, when
a component has more than 10 nodes, appends a bare ellipsis (no total
node count).  Stated as a refinement: the source translation equals the
listing built from the amended wording. -/
theorem format_components_amended (components : List (List String)) :
    fmtComponentsStr components = fmtComponentsAmendedSpec components := by
  unfold fmtComponentsStr fmtComponentsAmendedSpec fmtComponents
  congr 1
  apply List.map_congr_left
  intro p _
  unfold fmtComponentOne
  by_cases hl : p.2.length > 10
  · rw [if_pos hl, if_pos hl]
  · rw [if_neg hl, if_neg hl, string_append_empty]

theorem format_components_amended_witness :
    fmtComponentsStr [["a", "b"], ["c"]] =
      fmtComponentsAmendedSpec [["a", "b"], ["c"]] :=
  format_components_amended [["a", "b"], ["c"]]

/-! ## Claim C6 — extraction with empty text -/

/-- C6 counterexample: with empty input text and a provider whose
response holds one valid item, `extract_from_text` performs one provider
call (not zero) and returns a one-element list (not the empty list). -/
theorem extract_empty_text_cex :
    (extractFromText [rawAB] "" none).2 = 1 ∧
    (extractFromText [rawAB] "" none).1 =
      [⟨"A", "r", "B", .explicit, none⟩] := by
  exact ⟨rfl, by decide⟩

/-- C6 (amended): `extract_from_text` does not special-case empty text —
it performs exactly one provider extraction call for every input text
(the empty string included) and returns the provider's normalized valid
triples. -/
theorem extract_from_text_always_calls (resp : List RawTriple)
    (text : String) (rid : Option String) :
    (extractFromText resp text rid).2 = 1 ∧
    (extractFromText resp text rid).1 = resp.filterMap normalizeRaw :=
  ⟨rfl, rfl⟩

/-! ## Claim C7 — pre-phase of the builder orchestrator -/

/-- C7 counterexample: with `initial_triples = []` the Python truthiness
test `if initial_triples:` fails, so the initial extraction call IS made
(one call, and its result — not the empty list — is what the strategy
receives), refuting the claim for the empty list. -/
theorem ecg_empty_initial_cex :
    (extractConnectedGraph [rawAB] augNever "txt" none (some []) 3 2
        "connectivity").map
      (fun r => (r.extractionCalls, r.triples)) =
      .ok (1, [⟨"A", "r", "B", .explicit, none⟩]) := by
  rfl

/-- C7 (amended): when `initial_triples` is provided and non-empty, each
element is validated (already-constructed `Triple`s pass through, each
dict goes through the `Triple` constructor, invalid elements are
dropped), no initial extraction call is made, and the strategy runs on
the validated list. -/
theorem ecg_nonempty_initial (extResp : List RawTriple)
    (aug : Nat → Except String (List RawTriple)) (text : String)
    (rid : Option String) (l : List (Triple ⊕ RawTriple)) (hl : l ≠ [])
    (maxDisc maxIter : Nat) :
    extractConnectedGraph extResp aug text rid (some l) maxDisc maxIter
        "connectivity" =
      .ok ⟨(connectivityStrategy aug maxDisc maxIter
              (l.filterMap validateInitialElem)).triples,
        (connectivityStrategy aug maxDisc maxIter
              (l.filterMap validateInitialElem)).metadata, 0⟩ := by
  have hne : l.isEmpty = false := by
    cases l with
    | nil => exact absurd rfl hl
    | cons a t => rfl
  unfold extractConnectedGraph
  simp [hne]

/-! ## Claims C2 and C3 — the connectivity loop -/

theorem mkTriple_inference (h r t : String) (inf : InferenceType)
    (j : Option String) (tr : Triple) (H : mkTriple h r t inf j = some tr) :
    tr.inference = inf := by
  obtain ⟨htr, -⟩ := mkTriple_some h r t inf j tr H
  subst htr
  rfl

theorem tripleOfRawForced_contextual (d : RawTriple) (tr : Triple)
    (H : tripleOfRawForced d = some tr) :
    tr.inference = .contextual := by
  simp only [tripleOfRawForced, Option.bind_eq_bind, Option.bind_eq_some]
    at H
  obtain ⟨h, -, r, -, t, -, H⟩ := H
  exact mkTriple_inference h r t .contextual d.justification tr H

theorem connLoop_extends (provider : Nat → Except String (List RawTriple))
    (maxDisc : Nat) :
    ∀ fuel i acc recs, ∃ rest,
      (connLoop provider maxDisc fuel i acc recs).1 = acc ++ rest ∧
        ∀ t ∈ rest, t.inference = InferenceType.contextual := by
  intro fuel
  induction fuel with
  | zero =>
    intro i acc recs
    exact ⟨[], by simp [connLoop], by simp⟩
  | succ fuel ih =>
    intro i acc recs
    by_cases hc : (wccComponents (buildGraphT acc)).length ≤ maxDisc
    · refine ⟨[], ?_, by simp⟩
      rw [connLoop, if_pos hc]
      simp
    · cases hp : provider i with
      | error e =>
        refine ⟨[], ?_, by simp⟩
        rw [connLoop, if_neg hc, hp]
        simp
      | ok raws =>
        obtain ⟨rest, h1, h2⟩ := ih (i + 1)
          (acc ++ raws.filterMap tripleOfRawForced)
          (recs ++ [⟨i + 1, "success",
            some (wccComponents (buildGraphT acc)).length,
            some (raws.filterMap tripleOfRawForced).length, none⟩])
        refine ⟨raws.filterMap tripleOfRawForced ++ rest, ?_, ?_⟩
        · rw [connLoop, if_neg hc, hp]
          rw [h1, List.append_assoc]
        · intro t ht
          rcases List.mem_append.mp ht with hmem | hmem
          · obtain ⟨d, -, hsome⟩ := List.mem_filterMap.mp hmem
            exact tripleOfRawForced_contextual d t hsome
          · exact h2 t hmem

/-- C3: every triple added by the connectivity strategy (i.e., every
returned triple beyond the initial ones, whatever the provider's raw
items carry as inference) has `inference = contextual`; the initial
triples themselves are returned unchanged as a prefix. -/
theorem connectivity_added_contextual
    (provider : Nat → Except String (List RawTriple))
    (maxDisc maxIter : Nat) (init : List Triple) :
    (connectivityStrategy provider maxDisc maxIter init).triples.take
        init.length = init ∧
    ∀ t ∈ (connectivityStrategy provider maxDisc maxIter init).triples.drop
        init.length, t.inference = InferenceType.contextual := by
  obtain ⟨rest, h1, h2⟩ := connLoop_extends provider maxDisc maxIter 0 init []
  have htr : (connectivityStrategy provider maxDisc maxIter init).triples =
      init ++ rest := h1
  rw [htr]
  exact ⟨List.take_left init rest, by
    intro t ht
    rw [List.drop_left] at ht
    exact h2 t ht⟩

/-- Witness for C3: a provider item arriving with `inference =
"explicit"` is still stored as contextual. -/
theorem connectivity_added_contextual_witness :
    Triple.inference ⟨"A", "r", "B", .contextual, none⟩ =
      InferenceType.contextual :=
  (connectivity_added_contextual
      (fun _ => .ok [⟨some "A", some "r", some "B", some "explicit", none,
        none, none, none⟩]) 0 1
      [⟨"C", "s", "D", .explicit, none⟩]).2
    ⟨"A", "r", "B", .contextual, none⟩ (by decide)

/-- C2: if the provider raises in an iteration the loop reaches, the
loop exits at once: the triples accumulated before that iteration are
returned unchanged, the metadata records that iteration with status
`failed`, and `partial_result = true`; in particular, when the provider
raises on the very first augmentation call over given initial triples
(with the component count above the threshold so the call happens), the
returned triples equal the initial triples exactly. -/
theorem connectivity_provider_failure
    (provider : Nat → Except String (List RawTriple))
    (maxDisc maxIter : Nat) :
    (∀ fuel i acc recs e,
      maxDisc < (wccComponents (buildGraphT acc)).length →
      provider i = .error e →
      connLoop provider maxDisc (fuel + 1) i acc recs =
        (acc, recs ++ [⟨i + 1, "failed", none, none, some e⟩], true)) ∧
    (∀ init e, 0 < maxIter →
      maxDisc < (wccComponents (buildGraphT init)).length →
      provider 0 = .error e →
      connectivityStrategy provider maxDisc maxIter init =
        ⟨init, ⟨"connectivity", [⟨1, "failed", none, none, some e⟩],
          (wccComponents (buildGraphT init)).length, true⟩⟩) := by
  have part1 : ∀ fuel i acc recs e,
      maxDisc < (wccComponents (buildGraphT acc)).length →
      provider i = .error e →
      connLoop provider maxDisc (fuel + 1) i acc recs =
        (acc, recs ++ [⟨i + 1, "failed", none, none, some e⟩], true) := by
    intro fuel i acc recs e hgt herr
    rw [connLoop, if_neg (Nat.not_le.mpr hgt), herr]
  refine ⟨part1, ?_⟩
  intro init e hiter hgt herr
  obtain ⟨fuel, rfl⟩ : ∃ f, maxIter = f + 1 :=
    ⟨maxIter - 1, by omega⟩
  unfold connectivityStrategy
  rw [part1 fuel 0 init [] e hgt herr]
  simp

/-- Witness for C2: a provider that raises on its first call leaves the
two initial triples untouched and reports a failed first iteration. -/
theorem connectivity_provider_failure_witness :
    connectivityStrategy (fun _ => .error "boom") 1 2
        [⟨"A", "r", "B", .explicit, none⟩, ⟨"C", "s", "D", .explicit, none⟩] =
      ⟨[⟨"A", "r", "B", .explicit, none⟩, ⟨"C", "s", "D", .explicit, none⟩],
        ⟨"connectivity", [⟨1, "failed", none, none, some "boom"⟩], 2, true⟩⟩ :=
  (connectivity_provider_failure (fun _ => .error "boom") 1 2).2
    [⟨"A", "r", "B", .explicit, none⟩, ⟨"C", "s", "D", .explicit, none⟩]
    "boom" (by decide) (by decide) rfl

/-! ## Claim C1 — duplicate keys across augmentation -/

/-- C1 counterexample: in the builder connectivity strategy there is no
duplicate filtering at all — with an initial explicit `(A, r, B)` and a
provider returning the same key, the final list holds TWO triples with
key `(A, r, B)` (the explicit one and the contextual forced copy), not
exactly one. -/
theorem connectivity_no_dedup_cex :
    (connectivityStrategy
        (fun _ => .ok [⟨some "A", some "r", some "B", some "explicit",
          none, none, none, none⟩]) 0 1
        [⟨"A", "r", "B", .explicit, none⟩]).triples =
      [⟨"A", "r", "B", .explicit, none⟩, ⟨"A", "r", "B", .contextual, none⟩] ∧
    ((connectivityStrategy
        (fun _ => .ok [⟨some "A", some "r", some "B", some "explicit",
          none, none, none, none⟩]) 0 1
        [⟨"A", "r", "B", .explicit, none⟩]).triples.filter
      (fun t => decide (t.head = "A" ∧ t.relation = "r" ∧ t.tail = "B"))).length
      = 2 := by
  exact ⟨by decide, by decide⟩

theorem kgeNew_key_not_mem (aug : List RawTriple) (iteration : Nat)
    (ts : List DTriple) (k : String × String × String)
    (hk : k ∈ ts.map kgeKey) :
    (kgeNew aug iteration ts).filter (fun t => decide (kgeKey t = k)) = [] := by
  rw [List.filter_eq_nil_iff]
  intro t ht
  simp only [kgeNew, List.mem_map, List.mem_filter] at ht
  obtain ⟨t0, ⟨-, ht0⟩, hmark⟩ := ht
  have hkey : kgeKey t = kgeKey t0 := by rw [← hmark]; rfl
  have hnot : ¬ kgeKey t0 ∈ ts.map kgeKey := by
    simpa using ht0
  simp only [decide_eq_true_eq]
  intro heq
  exact hnot (by rw [← hkey, heq]; exact hk)

theorem kgeLoop_filter_key (provider : Nat → List RawTriple)
    (maxDisc : Nat) :
    ∀ fuel iteration numC ts augAcc recs (k : String × String × String),
      k ∈ ts.map kgeKey →
      ((kgeLoop provider maxDisc fuel iteration numC ts augAcc
          recs).1).filter (fun t => decide (kgeKey t = k)) =
        ts.filter (fun t => decide (kgeKey t = k)) := by
  intro fuel
  induction fuel with
  | zero =>
    intro iteration numC ts augAcc recs k _
    rfl
  | succ fuel ih =>
    intro iteration numC ts augAcc recs k hk
    rw [kgeLoop]
    by_cases h1 : numC ≤ maxDisc
    · rw [if_pos h1]
    · rw [if_neg h1]
      by_cases h2 :
          (kgeNew (provider recs.length) iteration ts).length = 0
      · rw [if_pos h2]
      · rw [if_neg h2]
        have hfilter :
            (ts ++ kgeNew (provider recs.length) iteration ts).filter
                (fun t => decide (kgeKey t = k)) =
              ts.filter (fun t => decide (kgeKey t = k)) := by
          rw [List.filter_append,
            kgeNew_key_not_mem (provider recs.length) iteration ts k hk,
            List.append_nil]
        by_cases h3 : numC ≤ (wccComponents (buildGraphD
            (ts ++ kgeNew (provider recs.length) iteration ts))).length
        · rw [if_pos h3]
          exact hfilter
        · rw [if_neg h3]
          have hk1 : k ∈ (ts ++
              kgeNew (provider recs.length) iteration ts).map kgeKey := by
            rw [List.map_append]
            exact List.mem_append_left _ hk
          rw [ih _ _ _ _ _ k hk1]
          exact hfilter

/-- C1 (amended): the duplicate handling lives in
`KnowledgeGraphExtractor.extract_connected_graph` and is a
skip-if-present filter applied BEFORE appending (not a separate pass over
the final list): an augmented triple whose `(head, relation, tail)` key
already occurs among the accumulated triples is dropped, so the final
list's triples with an initially-present key are exactly the initial
ones — the explicit version survives.  (In the builder
`connectivity_strategy` no filtering happens at all, as the
counterexample shows.) -/
theorem kge_initial_key_preserved (extResp : List RawTriple)
    (provider : Nat → List RawTriple) (initial : List DTriple)
    (maxDisc maxIter : Nat) (k : String × String × String)
    (hk : k ∈ initial.map kgeKey) :
    ((kgeExtractConnectedGraph extResp provider (some initial) maxDisc
        maxIter).triples).filter (fun t => decide (kgeKey t = k)) =
      (markInitial initial).filter (fun t => decide (kgeKey t = k)) := by
  have hkeys : (markInitial initial).map kgeKey = initial.map kgeKey := by
    unfold markInitial
    rw [List.map_map]
    rfl
  have hk' : k ∈ (markInitial initial).map kgeKey := by
    rw [hkeys]; exact hk
  exact kgeLoop_filter_key provider maxDisc maxIter 0
    ((wccComponents (buildGraphD (markInitial initial))).length)
    (markInitial initial) [] [] k hk'

/-! ## Claim C10 — graph construction and component analysis -/

theorem addNode_nodes (g : DiGraph) (v : String) :
    (addNode g v).nodes = addNodeName g.nodes v := by
  unfold addNode addNodeName
  split <;> rfl

theorem addNode_edges (g : DiGraph) (v : String) :
    (addNode g v).edges = g.edges := by
  unfold addNode
  split <;> rfl

theorem addEdge_nodes (g : DiGraph) (u v rel : String) :
    (addEdge g u v rel).nodes = addNodeName (addNodeName g.nodes u) v := by
  show (addNode (addNode g u) v).nodes = _
  rw [addNode_nodes, addNode_nodes]

theorem addEdge_edges (g : DiGraph) (u v rel : String) :
    (addEdge g u v rel).edges = setEdge g.edges u v rel := by
  show setEdge (addNode (addNode g u) v).edges u v rel = _
  rw [addNode_edges, addNode_edges]

theorem edgeKeyList_setEdge (es : List (String × String × String))
    (u v rel : String) :
    edgeKeyList (setEdge es u v rel) = insertKey (edgeKeyList es) (u, v) := by
  unfold setEdge insertKey
  by_cases hmem : (u, v) ∈ edgeKeyList es
  · rw [if_pos hmem, if_pos hmem]
    unfold edgeKeyList
    rw [List.map_map]
    apply List.map_congr_left
    intro e _
    by_cases hcond : e.1 = u ∧ e.2.1 = v
    · obtain ⟨h1, h2⟩ := hcond
      simp [h1, h2]
    · simp [hcond]
  · rw [if_neg hmem, if_neg hmem]
    unfold edgeKeyList
    rw [List.map_append]
    rfl

theorem foldl_addTripleEdge_nk :
    ∀ (items : List (String × String × String)) (g : DiGraph),
      (∀ x ∈ items, x.1 ≠ "" ∧ x.2.1 ≠ "") →
      ((items.foldl addTripleEdge g).nodes,
        edgeKeyList (items.foldl addTripleEdge g).edges) =
        (items.map (fun x => (x.1, x.2.1))).foldl stepNK
          (g.nodes, edgeKeyList g.edges) := by
  intro items
  induction items with
  | nil => intro g _; rfl
  | cons x rest ih =>
    intro g hval
    have hx := hval x (List.mem_cons_self x rest)
    have hstep : addTripleEdge g x = addEdge g x.1 x.2.1 x.2.2 := by
      unfold addTripleEdge
      rw [if_pos hx]
    rw [List.foldl_cons, List.map_cons, List.foldl_cons, hstep,
      ih (addEdge g x.1 x.2.1 x.2.2)
        (fun y hy => hval y (List.mem_cons_of_mem x hy))]
    congr 1
    unfold stepNK
    rw [addEdge_nodes, addEdge_edges, edgeKeyList_setEdge]

theorem addNodeName_mem (ns : List String) (v : String) (h : v ∈ ns) :
    addNodeName ns v = ns := by
  unfold addNodeName
  rw [if_pos h]

theorem insertKey_mem (ks : List (String × String)) (p : String × String)
    (h : p ∈ ks) : insertKey ks p = ks := by
  unfold insertKey
  rw [if_pos h]

theorem insertKey_not_mem (ks : List (String × String))
    (p : String × String) (h : ¬ p ∈ ks) : insertKey ks p = ks ++ [p] := by
  unfold insertKey
  rw [if_neg h]

theorem mem_addNodeName (ns : List String) (v a : String) (h : a ∈ ns) :
    a ∈ addNodeName ns v := by
  unfold addNodeName
  split
  · exact h
  · exact List.mem_append_left _ h

theorem self_mem_addNodeName (ns : List String) (v : String) :
    v ∈ addNodeName ns v := by
  unfold addNodeName
  by_cases h : v ∈ ns
  · rw [if_pos h]; exact h
  · rw [if_neg h]
    exact List.mem_append_right _ (by simp)

theorem nkInv_stepNK (st : List String × List (String × String))
    (p : String × String) (h : nkInv st) : nkInv (stepNK st p) := by
  intro q hq
  show q.1 ∈ addNodeName (addNodeName st.1 p.1) p.2 ∧
    q.2 ∈ addNodeName (addNodeName st.1 p.1) p.2
  have hq' : q ∈ insertKey st.2 p := hq
  by_cases hp : p ∈ st.2
  · rw [insertKey_mem st.2 p hp] at hq'
    obtain ⟨h1, h2⟩ := h q hq'
    exact ⟨mem_addNodeName _ _ _ (mem_addNodeName _ _ _ h1),
      mem_addNodeName _ _ _ (mem_addNodeName _ _ _ h2)⟩
  · rw [insertKey_not_mem st.2 p hp] at hq'
    rcases List.mem_append.mp hq' with hmem | hmem
    · obtain ⟨h1, h2⟩ := h q hmem
      exact ⟨mem_addNodeName _ _ _ (mem_addNodeName _ _ _ h1),
        mem_addNodeName _ _ _ (mem_addNodeName _ _ _ h2)⟩
    · have hqp : q = p := by simpa using hmem
      subst hqp
      exact ⟨mem_addNodeName _ _ _ (self_mem_addNodeName st.1 q.1),
        self_mem_addNodeName _ q.2⟩

theorem stepNK_mem (st : List String × List (String × String))
    (p : String × String) (hinv : nkInv st) (hp : p ∈ st.2) :
    stepNK st p = st := by
  obtain ⟨h1, h2⟩ := hinv p hp
  unfold stepNK
  rw [insertKey_mem st.2 p hp, addNodeName_mem st.1 p.1 h1,
    addNodeName_mem st.1 p.2 h2]

theorem foldl_stepNK_dedupRel :
    ∀ (ps : List (String × String))
      (st : List String × List (String × String)), nkInv st →
      ps.foldl stepNK st = (dedupRel st.2 ps).foldl stepNK st := by
  intro ps
  induction ps with
  | nil => intro st _; rfl
  | cons p rest ih =>
    intro st hinv
    by_cases hp : p ∈ st.2
    · rw [List.foldl_cons, stepNK_mem st p hinv hp, dedupRel, if_pos hp]
      exact ih st hinv
    · rw [List.foldl_cons, dedupRel, if_neg hp, List.foldl_cons]
      have hsnd : st.2 ++ [p] = (stepNK st p).2 :=
        (insertKey_not_mem st.2 p hp).symm
      rw [hsnd]
      exact ih (stepNK st p) (nkInv_stepNK st p hinv)

theorem foldl_stepNK_snd :
    ∀ (ps : List (String × String))
      (st : List String × List (String × String)),
      (ps.foldl stepNK st).2 = ps.foldl insertKey st.2 := by
  intro ps
  induction ps with
  | nil => intro st; rfl
  | cons p rest ih =>
    intro st
    rw [List.foldl_cons, List.foldl_cons]
    exact ih (stepNK st p)

theorem foldl_insertKey_dedupRel :
    ∀ (ps : List (String × String)) (acc : List (String × String)),
      ps.foldl insertKey acc = acc ++ dedupRel acc ps := by
  intro ps
  induction ps with
  | nil => intro acc; simp [dedupRel]
  | cons p rest ih =>
    intro acc
    by_cases hp : p ∈ acc
    · rw [List.foldl_cons, insertKey_mem acc p hp, dedupRel, if_pos hp]
      exact ih acc
    · rw [List.foldl_cons, insertKey_not_mem acc p hp, dedupRel, if_neg hp,
        ih (acc ++ [p])]
      simp

theorem buildGraphT_items_valid (ts : List Triple)
    (hval : ∀ t ∈ ts, t.head ≠ "" ∧ t.tail ≠ "") :
    ∀ x ∈ ts.map (fun t => (t.head, t.tail, t.relation)),
      x.1 ≠ "" ∧ x.2.1 ≠ "" := by
  intro x hx
  obtain ⟨t, ht, hxt⟩ := List.mem_map.mp hx
  subst hxt
  exact hval t ht

theorem buildGraphT_nk (ts : List Triple)
    (hval : ∀ t ∈ ts, t.head ≠ "" ∧ t.tail ≠ "") :
    ((buildGraphT ts).nodes, edgeKeyList (buildGraphT ts).edges) =
      (ts.map tripleKeyPair).foldl stepNK ([], []) := by
  have h := foldl_addTripleEdge_nk
    (ts.map (fun t => (t.head, t.tail, t.relation))) ⟨[], []⟩
    (buildGraphT_items_valid ts hval)
  have hpairs :
      (ts.map (fun t => (t.head, t.tail, t.relation))).map
        (fun x => (x.1, x.2.1)) = ts.map tripleKeyPair := by
    rw [List.map_map]
    rfl
  rw [hpairs] at h
  exact h

theorem buildGraphT_edgeKeys (ts : List Triple)
    (hval : ∀ t ∈ ts, t.head ≠ "" ∧ t.tail ≠ "") :
    edgeKeyList (buildGraphT ts).edges = dedupFirst (ts.map tripleKeyPair) := by
  have h := congrArg Prod.snd (buildGraphT_nk ts hval)
  simp only at h
  rw [h, foldl_stepNK_snd, foldl_insertKey_dedupRel]
  rfl

theorem find?_append_of_none {α : Type} (p : α → Bool) (l1 l2 : List α)
    (h : l1.find? p = none) : (l1 ++ l2).find? p = l2.find? p := by
  induction l1 with
  | nil => rfl
  | cons a t ih =>
    by_cases hp : p a = true
    · rw [List.find?_cons_of_pos _ hp] at h
      cases h
    · have hp' : p a = false := by simpa using hp
      rw [List.find?_cons_of_neg _ (by simp [hp'])] at h
      rw [List.cons_append, List.find?_cons_of_neg _ (by simp [hp'])]
      exact ih h

theorem findRel_setEdge_self (es : List (String × String × String))
    (u v rel : String) : findRel (setEdge es u v rel) u v = some rel := by
  unfold setEdge
  by_cases hmem : (u, v) ∈ edgeKeyList es
  · rw [if_pos hmem]
    induction es with
    | nil => cases hmem
    | cons e rest ih =>
      by_cases hcond : e.1 = u ∧ e.2.1 = v
      · unfold findRel
        rw [List.map_cons, if_pos hcond,
          List.find?_cons_of_pos _ (by simp)]
        rfl
      · have hmem' : (u, v) ∈ edgeKeyList rest := by
          unfold edgeKeyList at hmem
          rw [List.map_cons] at hmem
          rcases List.mem_cons.mp hmem with heq | hin
          · exfalso
            apply hcond
            have h1 : u = e.1 := congrArg Prod.fst heq
            have h2 : v = e.2.1 := congrArg Prod.snd heq
            exact ⟨h1.symm, h2.symm⟩
          · exact hin
        unfold findRel
        rw [List.map_cons, if_neg hcond,
          List.find?_cons_of_neg _ (by simpa using hcond)]
        exact ih hmem'
  · rw [if_neg hmem]
    unfold findRel
    have hnone : es.find? (fun e => decide (e.1 = u ∧ e.2.1 = v)) = none := by
      rw [List.find?_eq_none]
      intro e he hpe
      apply hmem
      have hce : e.1 = u ∧ e.2.1 = v := by simpa using hpe
      unfold edgeKeyList
      rw [List.mem_map]
      exact ⟨e, he, by rw [hce.1, hce.2]⟩
    rw [find?_append_of_none _ es _ hnone,
      List.find?_cons_of_pos _ (by simp)]
    rfl

theorem findRel_setEdge_other (es : List (String × String × String))
    (a b rel u v : String) (hne : ¬ (a = u ∧ b = v)) :
    findRel (setEdge es a b rel) u v = findRel es u v := by
  unfold setEdge
  by_cases hmem : (a, b) ∈ edgeKeyList es
  · rw [if_pos hmem]
    clear hmem
    induction es with
    | nil => rfl
    | cons e rest ih =>
      by_cases hcond : e.1 = a ∧ e.2.1 = b
      · have hpe : ¬ (e.1 = u ∧ e.2.1 = v) := by
          intro hco
          exact hne ⟨hcond.1 ▸ hco.1, hcond.2 ▸ hco.2⟩
        unfold findRel
        rw [List.map_cons, if_pos hcond,
          List.find?_cons_of_neg _ (by simpa using hne),
          List.find?_cons_of_neg _ (by simpa using hpe)]
        exact ih
      · unfold findRel
        rw [List.map_cons, if_neg hcond]
        by_cases hpe : e.1 = u ∧ e.2.1 = v
        · rw [List.find?_cons_of_pos _ (by simpa using hpe),
            List.find?_cons_of_pos _ (by simpa using hpe)]
        · rw [List.find?_cons_of_neg _ (by simpa using hpe),
            List.find?_cons_of_neg _ (by simpa using hpe)]
          exact ih
  · rw [if_neg hmem]
    unfold findRel
    by_cases hfind : es.find? (fun e => decide (e.1 = u ∧ e.2.1 = v)) = none
    · rw [find?_append_of_none _ es _ hfind, hfind,
        List.find?_cons_of_neg _ (by simpa using hne)]
      rfl
    · obtain ⟨e, he⟩ := Option.ne_none_iff_exists'.mp hfind
      rw [he]
      have : (es ++ [(a, b, rel)]).find?
          (fun e => decide (e.1 = u ∧ e.2.1 = v)) = some e := by
        rw [List.find?_append, he]
        rfl
      rw [this]

theorem buildGraphT_concat (ts : List Triple) (t : Triple) :
    buildGraphT (ts ++ [t]) =
      addTripleEdge (buildGraphT ts) (t.head, t.tail, t.relation) := by
  unfold buildGraphT buildGraphOf
  rw [List.map_append, List.foldl_append]
  rfl

theorem buildGraphT_lookupRel (ts : List Triple)
    (hval : ∀ t ∈ ts, t.head ≠ "" ∧ t.tail ≠ "") : ∀ u v : String,
    findRel (buildGraphT ts).edges u v =
      ((ts.filter (fun t => decide (t.head = u ∧ t.tail = v))).getLast?).map
        Triple.relation := by
  induction ts using List.reverseRecOn with
  | nil => intro u v; rfl
  | append_singleton ts t ih =>
    intro u v
    have hval' : ∀ x ∈ ts, x.head ≠ "" ∧ x.tail ≠ "" :=
      fun x hx => hval x (List.mem_append_left _ hx)
    have hvt : t.head ≠ "" ∧ t.tail ≠ "" :=
      hval t (List.mem_append_right _ (by simp))
    have hedges : (buildGraphT (ts ++ [t])).edges =
        setEdge (buildGraphT ts).edges t.head t.tail t.relation := by
      rw [buildGraphT_concat]
      unfold addTripleEdge
      rw [if_pos hvt]
      exact addEdge_edges _ _ _ _
    rw [hedges, List.filter_append]
    by_cases hcond : t.head = u ∧ t.tail = v
    · have hfil : List.filter
          (fun x => decide (x.head = u ∧ x.tail = v)) [t] = [t] := by
        simp [hcond]
      rw [hfil, List.getLast?_concat]
      obtain ⟨h1, h2⟩ := hcond
      rw [h1, h2, findRel_setEdge_self]
      rfl
    · have hfil : List.filter
          (fun x => decide (x.head = u ∧ x.tail = v)) [t] = [] := by
        simp [hcond]
      rw [hfil, List.append_nil,
        findRel_setEdge_other _ _ _ _ _ _ hcond]
      exact ih hval' u v

theorem dedupByPairGo_map (ts : List Triple) :
    ∀ seen : List (String × String),
      (dedupByPairGo seen ts).map tripleKeyPair =
        dedupRel seen (ts.map tripleKeyPair) := by
  induction ts with
  | nil => intro seen; rfl
  | cons t rest ih =>
    intro seen
    by_cases hp : tripleKeyPair t ∈ seen
    · rw [dedupByPairGo, if_pos hp, List.map_cons]
      simp only [dedupRel]
      rw [if_pos hp]
      exact ih seen
    · rw [dedupByPairGo, if_neg hp, List.map_cons]
      simp only [dedupRel]
      rw [if_neg hp, ih (seen ++ [tripleKeyPair t])]

theorem dedupByPairGo_subset (ts : List Triple) :
    ∀ (seen : List (String × String)) (t : Triple),
      t ∈ dedupByPairGo seen ts → t ∈ ts := by
  induction ts with
  | nil => intro seen t ht; cases ht
  | cons x rest ih =>
    intro seen t ht
    by_cases hp : tripleKeyPair x ∈ seen
    · rw [dedupByPairGo, if_pos hp] at ht
      exact List.mem_cons_of_mem x (ih seen t ht)
    · rw [dedupByPairGo, if_neg hp] at ht
      rcases List.mem_cons.mp ht with heq | hin
      · exact heq ▸ List.mem_cons_self x rest
      · exact List.mem_cons_of_mem x
          (ih (seen ++ [tripleKeyPair x]) t hin)

theorem wcc_of_nk_eq (g g' : DiGraph)
    (h : (g.nodes, edgeKeyList g.edges) = (g'.nodes, edgeKeyList g'.edges)) :
    wccComponents g = wccComponents g' := by
  have h1 : g.nodes = g'.nodes := congrArg Prod.fst h
  have h2 : edgeKeyList g.edges = edgeKeyList g'.edges := congrArg Prod.snd h
  unfold wccComponents
  rw [h1, h2]

theorem wcc_relation_independent (ts ts' : List Triple)
    (hval : ∀ t ∈ ts, t.head ≠ "" ∧ t.tail ≠ "")
    (hval' : ∀ t ∈ ts', t.head ≠ "" ∧ t.tail ≠ "")
    (hpairs : ts.map tripleKeyPair = ts'.map tripleKeyPair) :
    wccComponents (buildGraphT ts) = wccComponents (buildGraphT ts') := by
  apply wcc_of_nk_eq
  have h1 := buildGraphT_nk ts hval
  rw [hpairs] at h1
  exact h1.trans (buildGraphT_nk ts' hval').symm

theorem nkInv_nil : nkInv (([] : List String),
    ([] : List (String × String))) := by
  intro p hp
  cases hp

theorem wcc_multiplicity_independent (ts : List Triple)
    (hval : ∀ t ∈ ts, t.head ≠ "" ∧ t.tail ≠ "") :
    wccComponents (buildGraphT ts) =
      wccComponents (buildGraphT (dedupByPair ts)) := by
  apply wcc_of_nk_eq
  have hvald : ∀ t ∈ dedupByPair ts, t.head ≠ "" ∧ t.tail ≠ "" :=
    fun t ht => hval t (dedupByPairGo_subset ts [] t ht)
  have h1 := buildGraphT_nk ts hval
  have h2 := buildGraphT_nk (dedupByPair ts) hvald
  have hp : (dedupByPair ts).map tripleKeyPair =
      dedupRel [] (ts.map tripleKeyPair) := dedupByPairGo_map ts []
  rw [hp] at h2
  have hdd := foldl_stepNK_dedupRel (ts.map tripleKeyPair) ([], []) nkInv_nil
  exact h1.trans (hdd.trans h2.symm)

/-- C10: for every list of validated triples the analysis graph holds
exactly one edge per distinct ordered `(head, tail)` pair — the edge-key
list is the first-occurrence deduplication of the pair list — and the
relation attribute of each edge is the relation of the LAST triple with
that pair (later triples overwrite it); the weakly-connected-component
listing is independent of relation labels and of how many triples share
an ordered node pair; the empty triple list yields a graph with no nodes
and an empty component list. -/
theorem build_graph_component_spec :
    (∀ ts : List Triple, (∀ t ∈ ts, t.head ≠ "" ∧ t.tail ≠ "") →
      edgeKeyList (buildGraphT ts).edges =
          dedupFirst (ts.map tripleKeyPair) ∧
        ∀ u v : String, findRel (buildGraphT ts).edges u v =
          ((ts.filter
              (fun t => decide (t.head = u ∧ t.tail = v))).getLast?).map
            Triple.relation) ∧
    (∀ ts ts' : List Triple,
      (∀ t ∈ ts, t.head ≠ "" ∧ t.tail ≠ "") →
      (∀ t ∈ ts', t.head ≠ "" ∧ t.tail ≠ "") →
      ts.map tripleKeyPair = ts'.map tripleKeyPair →
      wccComponents (buildGraphT ts) = wccComponents (buildGraphT ts')) ∧
    (∀ ts : List Triple, (∀ t ∈ ts, t.head ≠ "" ∧ t.tail ≠ "") →
      wccComponents (buildGraphT ts) =
        wccComponents (buildGraphT (dedupByPair ts))) ∧
    ((buildGraphT []).nodes = [] ∧ wccComponents (buildGraphT []) = []) :=
  ⟨fun ts h => ⟨buildGraphT_edgeKeys ts h, buildGraphT_lookupRel ts h⟩,
    wcc_relation_independent, wcc_multiplicity_independent, rfl, rfl⟩

/-- Witness for C10 on concrete triples: two triples sharing the pair
`(A, B)` with different relations leave a single edge whose relation is
the later one, the components are unchanged by relabelling and by the
duplicate, and the empty list gives the empty graph. -/
theorem build_graph_component_spec_witness :
    edgeKeyList (buildGraphT [⟨"A", "r1", "B", .explicit, none⟩,
        ⟨"A", "r2", "B", .explicit, none⟩,
        ⟨"C", "s", "D", .explicit, none⟩]).edges =
      [("A", "B"), ("C", "D")] ∧
    findRel (buildGraphT [⟨"A", "r1", "B", .explicit, none⟩,
        ⟨"A", "r2", "B", .explicit, none⟩,
        ⟨"C", "s", "D", .explicit, none⟩]).edges "A" "B" = some "r2" ∧
    wccComponents (buildGraphT [⟨"A", "r1", "B", .explicit, none⟩,
        ⟨"C", "s", "D", .explicit, none⟩]) =
      wccComponents (buildGraphT [⟨"A", "x", "B", .contextual, none⟩,
        ⟨"C", "y", "D", .explicit, none⟩]) ∧
    wccComponents (buildGraphT [⟨"A", "r1", "B", .explicit, none⟩,
        ⟨"A", "r2", "B", .explicit, none⟩]) =
      wccComponents (buildGraphT (dedupByPair
        [⟨"A", "r1", "B", .explicit, none⟩,
          ⟨"A", "r2", "B", .explicit, none⟩])) := by
  refine ⟨?_, ?_, ?_, ?_⟩
  · exact (Eq.trans ((build_graph_component_spec.1 _ (by decide)).1)
      (by decide))
  · exact (Eq.trans ((build_graph_component_spec.1 _ (by decide)).2 "A" "B")
      (by decide))
  · exact build_graph_component_spec.2.1 _ _ (by decide) (by decide)
      (by decide)
  · exact build_graph_component_spec.2.2.1 _ (by decide)

/-- Witness for C1 (amended): the provider offers a duplicate of the
initial explicit `(A, r, B)`; the final list's triples with that key are
exactly the single (marked) initial one. -/
theorem kge_initial_key_preserved_witness :
    ((kgeExtractConnectedGraph []
        (fun _ => [⟨some "A", some "r", some "B", some "contextual", none,
          none, none, none⟩])
        (some [⟨"A", "r", "B", "explicit", none, none, none, none, none⟩])
        0 2).triples).filter
      (fun t => decide (kgeKey t = ("A", "r", "B"))) =
      [⟨"A", "r", "B", "explicit", none, none, none, none, some 0⟩] :=
  (kge_initial_key_preserved []
      (fun _ => [⟨some "A", some "r", some "B", some "contextual", none,
        none, none, none⟩])
      [⟨"A", "r", "B", "explicit", none, none, none, none, none⟩]
      0 2 ("A", "r", "B") (by decide)).trans (by decide)

/-- Witness for C7 (amended) at a concrete non-empty initial list: a
valid `Triple` instance passes through, an invalid dict (empty tail) is
dropped, and no extraction call happens. -/
theorem ecg_nonempty_initial_witness :
    extractConnectedGraph [rawAB] augNever "txt" none
        (some [.inl ⟨"C", "s", "D", .explicit, none⟩,
          .inr ⟨some "X", some "r", some " ", none, none, none, none, none⟩])
        3 2 "connectivity" =
      .ok ⟨[⟨"C", "s", "D", .explicit, none⟩],
        ⟨"connectivity", [], 1, false⟩, 0⟩ := by
  have h := ecg_nonempty_initial [rawAB] augNever "txt" none
    [.inl ⟨"C", "s", "D", .explicit, none⟩,
      .inr ⟨some "X", some "r", some " ", none, none, none, none, none⟩]
    (by decide) 3 2
  rw [h]
  rfl

end KG
